import Mathlib

/-!
Verification of the bounded tab pool and surrounding glue of the
powerschool-save repository (src/index.ts, src/run.ts).

The `Tabs` class is embedded as a small-step state machine: events are
`create()` calls (acquire), external tab closures, and reconciliation
passes (`createPendingTabs`, which the constructor's background loop runs
every 100ms).  Tabs and pending requests are identified by the natural
numbers 0, 1, 2, ... in order of creation/enqueue.  The `resolved` field
is a ghost log of (request id, tab id) pairs in the order the pool
resolved the corresponding futures; `created` is a ghost log of every tab
id the pool ever created.
-/

/-- State of the `Tabs` pool (class Tabs, src/index.ts lines 20-68).
`tabs` is `this.tabs` (open tab handles, by id, in insertion order),
`pending` is `this.pending` (FIFO queue of request ids, head = oldest),
`max` is `this.max`, `count` is `this.count`.  `nextTab`/`nextReq` supply
fresh ids; `closedTabs` records which tab ids have been externally
closed; `resolved` and `created` are ghost logs. -/
structure PoolState where
  tabs : List Nat
  pending : List Nat
  max : Nat
  count : Nat
  nextTab : Nat
  nextReq : Nat
  closedTabs : List Nat
  resolved : List (Nat × Nat)
  created : List Nat
  deriving Repr, DecidableEq

/-- `Tabs.cullDeadTabs` (src/index.ts lines 63-67), modelled faithfully to
the JavaScript `for (const [i, tab] of this.tabs.entries())` loop with
`this.tabs.splice(i, 1)` inside: splicing the element yielded at index `i`
shifts its successor into position `i`, and the array iterator next yields
index `i + 1`, so the element immediately after a removed element is
skipped (kept without being examined). -/
def cullDeadTabs (isClosed : Nat → Bool) : List Nat → List Nat
  | [] => []
  | [t] => if isClosed t then [] else [t]
  | t :: u :: rest =>
    if isClosed t then u :: cullDeadTabs isClosed rest
    else t :: cullDeadTabs isClosed (u :: rest)

/-- The `while (this.tabs.length < this.max)` admission loop of
`Tabs.createPendingTabs` (src/index.ts lines 51-60): while there is spare
capacity, shift the oldest pending request, create a tab with a fresh id,
push it onto `tabs`, resolve the request with it, and increment `count`.
The queue is threaded as an explicit argument and written back. -/
def servePending (m : Nat) : List Nat → PoolState → PoolState
  | [], s => { s with pending := [] }
  | r :: rest, s =>
    if s.tabs.length < m then
      servePending m rest
        { s with
          tabs := s.tabs ++ [s.nextTab]
          count := s.count + 1
          nextTab := s.nextTab + 1
          resolved := s.resolved ++ [(r, s.nextTab)]
          created := s.created ++ [s.nextTab] }
    else { s with pending := r :: rest }

/-- `Tabs.createPendingTabs` (src/index.ts lines 48-61): one
reconciliation pass, i.e. cull dead tabs, then admit pending requests up
to capacity. -/
def createPendingTabs (s : PoolState) : PoolState :=
  servePending s.max s.pending
    { s with tabs := cullDeadTabs (fun t => s.closedTabs.contains t) s.tabs }

/-- Events the pool reacts to: a `create()` call (src/index.ts lines
42-46, which only enqueues a resolver), an external closure of a tab
handle, and a pass of the background reconciliation loop. -/
inductive PoolEvent where
  | create
  | closeTab (t : Nat)
  | reconcile
  deriving Repr, DecidableEq

/-- One step of the pool: `create` pushes a fresh request id onto the
FIFO queue; `closeTab t` marks tab `t` externally closed (the pool only
observes this at the next cull); `reconcile` runs `createPendingTabs`. -/
def step (s : PoolState) : PoolEvent → PoolState
  | .create => { s with pending := s.pending ++ [s.nextReq], nextReq := s.nextReq + 1 }
  | .closeTab t => { s with closedTabs := s.closedTabs ++ [t] }
  | .reconcile => createPendingTabs s

/-- The pool as built by the constructor (src/index.ts lines 27-40):
empty open set, empty queue, capacity `m`, counter 0. -/
def initState (m : Nat) : PoolState :=
  { tabs := [], pending := [], max := m, count := 0, nextTab := 0, nextReq := 0,
    closedTabs := [], resolved := [], created := [] }

/-- Run the pool from its initial state over a sequence of events. -/
def run (m : Nat) (es : List PoolEvent) : PoolState :=
  es.foldl step (initState m)

/-!
### The per-page save loop of `PowerSchoolSave.savePages`

`savePages` (src/index.ts lines 199-223) runs, for each page, a
`while (true)` loop: acquire a tab, navigate, expand comments, start
scrolling, then `try { await tab.waitForSelector('div.stub', { hidden:
true }) } catch { await tab.close(); continue }`; on success it renders
the PDF, closes the tab and returns.  The browser is abstracted by an
oracle listing the outcome of each successive `waitForSelector` call
(`true` = the stub disappeared in time, `false` = timeout).  The other
awaited operations of the loop body have no catch around them, so the
loop's control flow depends only on this oracle. -/

/-- Outcome of running the per-page loop against a finite oracle:
how many tabs were acquired, how many were closed, and whether the page
was saved (the loop returned).  An exhausted oracle means the loop is
still running (its next wait has not completed). -/
structure PageSaveRun where
  tabsAcquired : Nat
  tabsClosed : Nat
  saved : Bool
  deriving Repr, DecidableEq

/-- The `while (true)` retry loop of `PowerSchoolSave.savePages`: each
oracle entry is one iteration's `waitForSelector('div.stub', ...)`
outcome; a timeout closes the tab and continues, a success renders the
PDF, closes the tab and returns. -/
def savePageLoop : List Bool → PageSaveRun
  | [] => { tabsAcquired := 0, tabsClosed := 0, saved := false }
  | ok :: rest =>
    if ok then { tabsAcquired := 1, tabsClosed := 1, saved := true }
    else
      let r := savePageLoop rest
      { tabsAcquired := r.tabsAcquired + 1, tabsClosed := r.tabsClosed + 1,
        saved := r.saved }

/-!
### Error handling of the scraping operations

`PowerSchoolSave` (src/index.ts lines 115-418) holds `private tabs?:
Tabs`, set only by `login`.  Each scraping operation is modelled as a
function of whether the pool has been set (`tabsSet`), returning
`Except ScrapeError Unit`.  The browser, filesystem and DOM collaborators
are opaque and assumed to respond (spec §6); their work is modelled as
success, since only the not-logged-in control flow is at issue here.
Concurrent `Promise.all` fan-out is modelled by sequencing: the error
observed is the first rejection. -/

/-- `class NotLoggedInError extends Error` (src/index.ts line 8), plus
the generic error case. -/
inductive ScrapeError where
  | notLoggedIn
  | otherFailure (msg : String)
  deriving Repr, DecidableEq

/-- `PowerSchoolSave.saveGrades` (lines 405-417): guard, then browser
work. -/
def saveGrades (tabsSet : Bool) : Except ScrapeError Unit :=
  if !tabsSet then .error .notLoggedIn else .ok ()

/-- `PowerSchoolSave.saveActivitiesAssignmentWork` (lines 341-354):
guard, then browser work. -/
def saveActivitiesAssignmentWork (tabsSet : Bool) : Except ScrapeError Unit :=
  if !tabsSet then .error .notLoggedIn else .ok ()

/-- `PowerSchoolSave.saveActivitiesAssignments` (lines 305-339): guard,
then the assignment pages, each of which may save its handed-in work. -/
def saveActivitiesAssignments (tabsSet : Bool) : Except ScrapeError Unit :=
  if !tabsSet then .error .notLoggedIn
  else saveActivitiesAssignmentWork tabsSet

/-- `PowerSchoolSave.saveActivitiesDiscussions` (lines 356-403): guard,
then browser work. -/
def saveActivitiesDiscussions (tabsSet : Bool) : Except ScrapeError Unit :=
  if !tabsSet then .error .notLoggedIn else .ok ()

/-- `PowerSchoolSave.saveActivities` (lines 295-303): no guard of its
own; it creates the Activities directory and fans out to the two guarded
sub-operations. -/
def saveActivities (tabsSet : Bool) : Except ScrapeError Unit := do
  saveActivitiesAssignments tabsSet
  saveActivitiesDiscussions tabsSet

/-- `PowerSchoolSave.saveMessagesInbox` (lines 236-263): guard, then
browser work. -/
def saveMessagesInbox (tabsSet : Bool) : Except ScrapeError Unit :=
  if !tabsSet then .error .notLoggedIn else .ok ()

/-- `PowerSchoolSave.saveMessagesDrafts` (lines 265-293): guard, then
browser work. -/
def saveMessagesDrafts (tabsSet : Bool) : Except ScrapeError Unit :=
  if !tabsSet then .error .notLoggedIn else .ok ()

/-- `PowerSchoolSave.saveMessages` (lines 226-234): no guard of its own;
it creates the Messages directory and fans out to the two guarded
sub-operations. -/
def saveMessages (tabsSet : Bool) : Except ScrapeError Unit := do
  saveMessagesInbox tabsSet
  saveMessagesDrafts tabsSet

/-- `PowerSchoolSave.savePages` (lines 180-224): guard, then the page
enumeration and the per-page retry loops. -/
def savePages (tabsSet : Bool) : Except ScrapeError Unit :=
  if !tabsSet then .error .notLoggedIn else .ok ()

/-- `PowerSchoolSave.saveClass` (lines 156-178): guard, then fan-out to
the four section savers. -/
def saveClass (tabsSet : Bool) : Except ScrapeError Unit :=
  if !tabsSet then .error .notLoggedIn
  else do
    savePages tabsSet
    saveMessages tabsSet
    saveActivities tabsSet
    saveGrades tabsSet

/-- `PowerSchoolSave.saveClasses` (lines 141-154): guard, then
`saveClass` for each enumerated class. -/
def saveClasses (tabsSet : Bool) : Except ScrapeError Unit :=
  if !tabsSet then .error .notLoggedIn
  else saveClass tabsSet

/-!
### The entry point (src/run.ts)

`run.ts` wraps the whole run in `try { ...; process.exit() } catch
(error) { if (error instanceof Error) console.log('Error:',
error.message, error.stack); process.exit() }`.  `process.exit()` with no
argument exits with status 0.  The run's outcome is abstracted as either
success or an `Error` with a message. -/

/-- Outcome of the awaited body of the entry point. -/
inductive RunOutcome where
  | success
  | failure (msg : String)
  deriving Repr, DecidableEq

/-- The entry point's observable effects: the process exit status and
what, if anything, was logged about an error to standard output. -/
def runEntry : RunOutcome → Nat × Option String
  | .success => (0, none)
  | .failure msg => (0, some ("Error: " ++ msg))

/-!
### `sanitizeFilename` (src/index.ts lines 16-18)

`text.replace(/[^a-z0-9\(\)\[\]\-, ]/gi, '_')`: every character that is
not an ASCII letter (the `i` flag makes `a-z` case-insensitive), digit,
parenthesis, square bracket, hyphen, comma or space is replaced by an
underscore. -/

/-- Membership in the character class `[a-z0-9\(\)\[\]\-, ]` with the
`i` (ignore-case) flag. -/
def allowedChar (c : Char) : Bool :=
  ('a' ≤ c && c ≤ 'z') || ('A' ≤ c && c ≤ 'Z') || ('0' ≤ c && c ≤ '9') ||
  c == '(' || c == ')' || c == '[' || c == ']' || c == '-' || c == ',' || c == ' '

/-- The per-character action of the `replace` call. -/
def sanitizeChar (c : Char) : Char :=
  if allowedChar c then c else '_'

/-- `sanitizeFilename` (src/index.ts lines 16-18). -/
def sanitizeFilename (s : String) : String :=
  String.mk (s.data.map sanitizeChar)

/-!
### Helper lemmas about the pool
-/

theorem foldl_step_preserve (P : PoolState → Prop)
    (h : ∀ s e, P s → P (step s e)) :
    ∀ (es : List PoolEvent) (s : PoolState), P s → P (es.foldl step s) := by
  intro es
  induction es with
  | nil => intro s hs; exact hs
  | cons e es ih => intro s hs; exact ih _ (h s e hs)

theorem cullDeadTabs_length_le_aux (f : Nat → Bool) :
    ∀ (n : Nat) (l : List Nat), l.length ≤ n →
      (cullDeadTabs f l).length ≤ l.length := by
  intro n
  induction n with
  | zero =>
    intro l hl
    have : l = [] := List.eq_nil_of_length_eq_zero (Nat.le_zero.mp hl)
    subst this
    simp [cullDeadTabs]
  | succ n ih =>
    intro l hl
    match l with
    | [] => simp [cullDeadTabs]
    | [t] => by_cases h : f t <;> simp [cullDeadTabs, h]
    | t :: u :: rest =>
      simp only [List.length_cons] at hl
      by_cases h : f t
      · have hr : (cullDeadTabs f rest).length ≤ rest.length :=
          ih rest (by omega)
        simp [cullDeadTabs, h]
        omega
      · have hr : (cullDeadTabs f (u :: rest)).length ≤ (u :: rest).length :=
          ih (u :: rest) (by simp; omega)
        simp [cullDeadTabs, h]
        simp only [List.length_cons] at hr
        omega

theorem cullDeadTabs_length_le (f : Nat → Bool) (l : List Nat) :
    (cullDeadTabs f l).length ≤ l.length :=
  cullDeadTabs_length_le_aux f l.length l (Nat.le_refl _)

theorem servePending_max (m : Nat) :
    ∀ (q : List Nat) (s : PoolState), (servePending m q s).max = s.max := by
  intro q
  induction q with
  | nil => intro s; rfl
  | cons r rest ih =>
    intro s
    simp only [servePending]
    by_cases h : s.tabs.length < m
    · simp only [h, if_true]; rw [ih]
    · simp [h]

theorem servePending_tabs_le (m : Nat) :
    ∀ (q : List Nat) (s : PoolState),
      s.tabs.length ≤ m → (servePending m q s).tabs.length ≤ m := by
  intro q
  induction q with
  | nil => intro s hs; exact hs
  | cons r rest ih =>
    intro s hs
    simp only [servePending]
    by_cases h : s.tabs.length < m
    · simp only [h, if_true]
      exact ih _ (by simpa using Nat.succ_le_of_lt h)
    · simpa [h] using hs

/-- Claim C1 core invariant: the open set never exceeds capacity, and the
capacity field is the constructor argument. -/
theorem run_tabs_le (m : Nat) (es : List PoolEvent) :
    (run m es).max = m ∧ (run m es).tabs.length ≤ m := by
  have h := foldl_step_preserve (fun s => s.max = m ∧ s.tabs.length ≤ m)
    (by
      intro s e ⟨hmax, hlen⟩
      cases e with
      | create => exact ⟨hmax, hlen⟩
      | closeTab t => exact ⟨hmax, hlen⟩
      | reconcile =>
        constructor
        · rw [step, createPendingTabs, servePending_max]; exact hmax
        · rw [step, createPendingTabs, ← hmax]
          exact servePending_tabs_le s.max s.pending _
            (Nat.le_trans (cullDeadTabs_length_le _ s.tabs) (hmax ▸ hlen)))
    es (initState m) ⟨rfl, Nat.zero_le m⟩
  exact h

theorem servePending_nextReq (m : Nat) :
    ∀ (q : List Nat) (s : PoolState), (servePending m q s).nextReq = s.nextReq := by
  intro q
  induction q with
  | nil => intro s; rfl
  | cons r rest ih =>
    intro s
    simp only [servePending]
    by_cases h : s.tabs.length < m
    · simp only [h, if_true]; rw [ih]
    · simp [h]

theorem servePending_queue (m : Nat) :
    ∀ (q : List Nat) (s : PoolState),
      s.resolved.map Prod.fst ++ q = List.range s.nextReq →
      (servePending m q s).resolved.map Prod.fst ++ (servePending m q s).pending
        = List.range (servePending m q s).nextReq := by
  intro q
  induction q with
  | nil =>
    intro s hs
    simpa [servePending] using hs
  | cons r rest ih =>
    intro s hs
    simp only [servePending]
    by_cases h : s.tabs.length < m
    · simp only [h, if_true]
      apply ih
      simpa [List.append_assoc] using hs
    · simpa [h] using hs

/-- Every request id ever handed out is either in the resolution log or
still in the FIFO queue, in enqueue order: the log's request ids followed
by the queue are exactly `0, 1, ..., nextReq - 1`. -/
theorem run_queue_range (m : Nat) (es : List PoolEvent) :
    (run m es).resolved.map Prod.fst ++ (run m es).pending
      = List.range (run m es).nextReq := by
  exact foldl_step_preserve
    (fun s => s.resolved.map Prod.fst ++ s.pending = List.range s.nextReq)
    (by
      intro s e hs
      cases e with
      | create =>
        simp only [step]
        rw [← List.append_assoc, hs, ← List.range_succ]
      | closeTab t => exact hs
      | reconcile =>
        exact servePending_queue s.max s.pending _ hs)
    es (initState m) rfl

theorem prefix_of_range_getElem (A B : List Nat) (n : Nat)
    (h : A ++ B = List.range n) :
    ∀ p, p < A.length → A[p]? = some p := by
  intro p hp
  have hlen : A.length + B.length = n := by
    have hc := congrArg List.length h
    simpa using hc
  have h1 : (A ++ B)[p]? = A[p]? := List.getElem?_append_left hp
  rw [h, List.getElem?_range (by omega)] at h1
  exact h1.symm

theorem servePending_zero :
    ∀ (q : List Nat) (s : PoolState),
      (servePending 0 q s).resolved = s.resolved ∧
      (servePending 0 q s).max = s.max := by
  intro q
  induction q with
  | nil => intro s; exact ⟨rfl, rfl⟩
  | cons r rest ih =>
    intro s
    simp [servePending, Nat.not_lt_zero]

theorem servePending_counts (m : Nat) :
    ∀ (q : List Nat) (s : PoolState),
      s.count = s.created.length ∧ s.created = List.range s.nextTab →
      (servePending m q s).count = (servePending m q s).created.length ∧
      (servePending m q s).created = List.range (servePending m q s).nextTab := by
  intro q
  induction q with
  | nil => intro s hs; exact hs
  | cons r rest ih =>
    intro s ⟨hcount, hcreated⟩
    simp only [servePending]
    by_cases h : s.tabs.length < m
    · simp only [h, if_true]
      apply ih
      constructor
      · simp [hcount]
      · simp only [hcreated, ← List.range_succ]
    · simpa [h] using ⟨hcount, hcreated⟩

theorem servePending_count_mono (m : Nat) :
    ∀ (q : List Nat) (s : PoolState), s.count ≤ (servePending m q s).count := by
  intro q
  induction q with
  | nil => intro s; exact Nat.le_refl _
  | cons r rest ih =>
    intro s
    simp only [servePending]
    by_cases h : s.tabs.length < m
    · simp only [h, if_true]
      have h2 := ih { s with
          tabs := s.tabs ++ [s.nextTab]
          count := s.count + 1
          nextTab := s.nextTab + 1
          resolved := s.resolved ++ [(r, s.nextTab)]
          created := s.created ++ [s.nextTab] }
      exact Nat.le_trans (Nat.le_succ _) h2
    · simp [h]

theorem step_count_mono (s : PoolState) (e : PoolEvent) :
    s.count ≤ (step s e).count := by
  cases e with
  | create => exact Nat.le_refl _
  | closeTab t => exact Nat.le_refl _
  | reconcile =>
    exact servePending_count_mono s.max s.pending
      { s with tabs := cullDeadTabs (fun t => s.closedTabs.contains t) s.tabs }

theorem foldl_step_count_mono :
    ∀ (es : List PoolEvent) (s : PoolState), s.count ≤ (es.foldl step s).count := by
  intro es
  induction es with
  | nil => intro s; exact Nat.le_refl _
  | cons e es ih =>
    intro s
    exact Nat.le_trans (step_count_mono s e) (ih (step s e))

theorem run_counts (m : Nat) (es : List PoolEvent) :
    (run m es).count = (run m es).created.length ∧
    (run m es).created = List.range (run m es).nextTab :=
  foldl_step_preserve
    (fun s => s.count = s.created.length ∧ s.created = List.range s.nextTab)
    (by
      intro s e hs
      cases e with
      | create => exact hs
      | closeTab t => exact hs
      | reconcile => exact servePending_counts s.max s.pending _ hs)
    es (initState m) ⟨rfl, rfl⟩

/-!
### The claims
-/

/-- Claim C1: for every sequence of `create()` calls, external tab
closures and reconciliation passes, the number of handles in the pool's
open set (`this.tabs`) never exceeds the capacity `this.max` fixed at
construction — in particular at every reconciliation point. -/
theorem capacity_invariant (m : Nat) (es : List PoolEvent) :
    (run m es).tabs.length ≤ m :=
  (run_tabs_le m es).2

/-- Claim C2: FIFO service order.  For two `create()` calls A then B
(request ids `i < j`, since ids are handed out in call order), if B's
future has been resolved then A's was resolved too, and at an earlier
position of the resolution log: pending requests are never served out of
the order in which they were enqueued. -/
theorem fifo_order (m : Nat) (es : List PoolEvent) (i j : Nat) (hij : i < j)
    (hj : j ∈ (run m es).resolved.map Prod.fst) :
    i ∈ (run m es).resolved.map Prod.fst ∧
    ∃ p q : Nat, p < q ∧
      ((run m es).resolved.map Prod.fst)[p]? = some i ∧
      ((run m es).resolved.map Prod.fst)[q]? = some j := by
  have hrange := run_queue_range m es
  have key := prefix_of_range_getElem ((run m es).resolved.map Prod.fst)
    (run m es).pending _ hrange
  obtain ⟨q, hqj⟩ := List.mem_iff_getElem?.mp hj
  have hqlen : q < ((run m es).resolved.map Prod.fst).length := by
    by_contra hge
    rw [List.getElem?_eq_none (Nat.le_of_not_lt hge)] at hqj
    exact Option.noConfusion hqj
  have hq' : ((run m es).resolved.map Prod.fst)[q]? = some q := key q hqlen
  have hjq : q = j := by
    rw [hq'] at hqj
    exact Option.some.inj hqj
  have hjlen : j < ((run m es).resolved.map Prod.fst).length := hjq ▸ hqlen
  have hilen : i < ((run m es).resolved.map Prod.fst).length :=
    Nat.lt_trans hij hjlen
  refine ⟨List.mem_iff_getElem?.mpr ⟨i, key i hilen⟩, i, j, hij, key i hilen, key j hjlen⟩

/-- Concrete instantiation of `fifo_order`: capacity 1, two `create()`
calls; the first is served on the first reconciliation pass, the second
only after the first tab is closed, in FIFO order. -/
theorem fifo_order_witness :
    0 ∈ (run 1 [PoolEvent.create, PoolEvent.create, PoolEvent.reconcile,
          PoolEvent.closeTab 0, PoolEvent.reconcile]).resolved.map Prod.fst ∧
    ∃ p q : Nat, p < q ∧
      ((run 1 [PoolEvent.create, PoolEvent.create, PoolEvent.reconcile,
          PoolEvent.closeTab 0, PoolEvent.reconcile]).resolved.map Prod.fst)[p]?
        = some 0 ∧
      ((run 1 [PoolEvent.create, PoolEvent.create, PoolEvent.reconcile,
          PoolEvent.closeTab 0, PoolEvent.reconcile]).resolved.map Prod.fst)[q]?
        = some 1 :=
  fifo_order 1 [PoolEvent.create, PoolEvent.create, PoolEvent.reconcile,
    PoolEvent.closeTab 0, PoolEvent.reconcile] 0 1 (by decide) (by decide)

/-- Claim C3 evaluated on the code: with capacity 2, two tabs are created
and then both are externally closed; after the next reconciliation pass
(one `cullDeadTabs` call) the second closed tab, id 1, is still in the
open set, because `cullDeadTabs` splices inside a live `entries()`
iteration and skips the element after each removal.  The last conjunct
shows the culprit directly: culling `[0, 1]` with both closed leaves
`[1]`. -/
theorem cull_adjacent_closed_remains :
    (run 2 [PoolEvent.create, PoolEvent.create, PoolEvent.reconcile,
        PoolEvent.closeTab 0, PoolEvent.closeTab 1, PoolEvent.reconcile]).tabs
      = [1] ∧
    (run 2 [PoolEvent.create, PoolEvent.create, PoolEvent.reconcile,
        PoolEvent.closeTab 0, PoolEvent.closeTab 1, PoolEvent.reconcile]).closedTabs.contains 1
      = true ∧
    cullDeadTabs (fun t => t == 0 || t == 1) [0, 1] = [1] := by decide

/-- Claim C4: lifetime-counter exactness.  `this.count` never decreases
as further events happen, and at every point it equals the number of
distinct tabs ever created by the pool (`created` is the ghost log of
every tab id ever created, and it has no duplicates). -/
theorem lifetime_counter (m : Nat) (es extra : List PoolEvent) :
    (run m es).count ≤ (run m (es ++ extra)).count ∧
    (run m es).count = (run m es).created.length ∧
    (run m es).created.Nodup := by
  refine ⟨?_, (run_counts m es).1, ?_⟩
  · simp only [run, List.foldl_append]
    exact foldl_step_count_mono extra (es.foldl step (initState m))
  · rw [(run_counts m es).2]
    exact List.nodup_range _

/-- Claim C5: the concrete scenario of spec §8.6.  Capacity 2, three
`create()` calls R1 R2 R3 (request ids 0, 1, 2): after one reconciliation
pass R1 and R2 are resolved (with tabs 0 and 1) and R3 is still pending;
after R1's tab 0 is externally closed and one more pass runs, R3 is
resolved with the fresh tab 2, R2's tab 1 is still in the open set, and
the lifetime counter is 3. -/
theorem scenario_capacity_two :
    (run 2 [PoolEvent.create, PoolEvent.create, PoolEvent.create,
        PoolEvent.reconcile]).resolved = [(0, 0), (1, 1)] ∧
    (run 2 [PoolEvent.create, PoolEvent.create, PoolEvent.create,
        PoolEvent.reconcile]).pending = [2] ∧
    (run 2 [PoolEvent.create, PoolEvent.create, PoolEvent.create,
        PoolEvent.reconcile, PoolEvent.closeTab 0, PoolEvent.reconcile]).resolved
      = [(0, 0), (1, 1), (2, 2)] ∧
    (run 2 [PoolEvent.create, PoolEvent.create, PoolEvent.create,
        PoolEvent.reconcile, PoolEvent.closeTab 0, PoolEvent.reconcile]).tabs
      = [1, 2] ∧
    (run 2 [PoolEvent.create, PoolEvent.create, PoolEvent.create,
        PoolEvent.reconcile, PoolEvent.closeTab 0, PoolEvent.reconcile]).count
      = 3 := by decide

/-- Claim C6: `create()` has no error path.  Every request ever made is
either in the resolution log or still pending, in full — no request is
ever rejected, dropped, timed out or cancelled; and with a capacity that
never frees up anything (capacity 0), no future ever resolves. -/
theorem create_no_error (m : Nat) (es : List PoolEvent) :
    (run m es).resolved.map Prod.fst ++ (run m es).pending
      = List.range (run m es).nextReq ∧
    (run 0 es).resolved = [] := by
  refine ⟨run_queue_range m es, ?_⟩
  have h := foldl_step_preserve (fun s => s.max = 0 ∧ s.resolved = [])
    (by
      intro s e ⟨hmax, hres⟩
      cases e with
      | create => exact ⟨hmax, hres⟩
      | closeTab t => exact ⟨hmax, hres⟩
      | reconcile =>
        show (createPendingTabs s).max = 0 ∧ (createPendingTabs s).resolved = []
        rw [createPendingTabs, hmax]
        have hz := servePending_zero s.pending
          { s with max := 0,
                   tabs := cullDeadTabs (fun t => s.closedTabs.contains t) s.tabs }
        exact ⟨hz.2, hz.1.trans hres⟩)
    es (initState 0) ⟨rfl, rfl⟩
  exact h.2

/-- Claim C7: transient page-render failure recovery in `savePages`.
For every sequence of wait outcomes: the page is saved exactly when some
wait succeeds; every acquired tab is closed (a timed-out tab is discarded
and a fresh one acquired); and the loop runs one iteration per leading
timeout plus the final successful one — in particular, with `n` timeouts
and no success it has retried `n` times and is still going, for every
`n`: there is no retry ceiling. -/
theorem savePages_retry (outcomes : List Bool) :
    ((savePageLoop outcomes).saved = outcomes.any (fun b => b)) ∧
    (savePageLoop outcomes).tabsClosed = (savePageLoop outcomes).tabsAcquired ∧
    (savePageLoop outcomes).tabsAcquired
      = (outcomes.takeWhile (fun b => !b)).length
        + (if outcomes.any (fun b => b) then 1 else 0) := by
  induction outcomes with
  | nil => exact ⟨rfl, rfl, rfl⟩
  | cons ok rest ih =>
    obtain ⟨ih1, ih2, ih3⟩ := ih
    by_cases h : ok = true
    · subst h
      refine ⟨by simp [savePageLoop], by simp [savePageLoop], ?_⟩
      simp [savePageLoop, List.takeWhile_cons]
    · have hok : ok = false := by
        cases ok
        · rfl
        · exact absurd rfl h
      subst hok
      refine ⟨by simpa [savePageLoop] using ih1, by simpa [savePageLoop] using ih2, ?_⟩
      by_cases hr : rest.any (fun b => b) = true
      · simp [savePageLoop, List.takeWhile_cons, hr]
        simp [hr] at ih3
        omega
      · simp [savePageLoop, List.takeWhile_cons, hr]
        simp [hr] at ih3
        omega

/-- Claim C8: every scraping operation of `PowerSchoolSave` — the six
named operations and their sub-operations — invoked before login has
completed (the tabs pool unset) fails with `NotLoggedInError`. -/
theorem not_logged_in_guard :
    saveClasses false = .error .notLoggedIn ∧
    saveClass false = .error .notLoggedIn ∧
    savePages false = .error .notLoggedIn ∧
    saveMessages false = .error .notLoggedIn ∧
    saveMessagesInbox false = .error .notLoggedIn ∧
    saveMessagesDrafts false = .error .notLoggedIn ∧
    saveActivities false = .error .notLoggedIn ∧
    saveActivitiesAssignments false = .error .notLoggedIn ∧
    saveActivitiesAssignmentWork false = .error .notLoggedIn ∧
    saveActivitiesDiscussions false = .error .notLoggedIn ∧
    saveGrades false = .error .notLoggedIn :=
  ⟨rfl, rfl, rfl, rfl, rfl, rfl, rfl, rfl, rfl, rfl, rfl⟩

/-- Claim C9: for every execution of the entry point, successful or not,
the process exits with status 0; a thrown error is only logged to
standard output and never surfaces in the exit code. -/
theorem entry_exit_zero (r : RunOutcome) :
    (runEntry r).1 = 0 ∧
    (runEntry RunOutcome.success).2 = none ∧
    (∀ msg : String, (runEntry (RunOutcome.failure msg)).2
      = some ("Error: " ++ msg)) := by
  refine ⟨?_, rfl, fun msg => rfl⟩
  cases r <;> rfl

theorem sanitizeChar_idem (c : Char) :
    sanitizeChar (sanitizeChar c) = sanitizeChar c := by
  by_cases h : allowedChar c
  · simp [sanitizeChar, h]
  · simp [sanitizeChar, h]

theorem sanitizeChar_output (c : Char) :
    (allowedChar (sanitizeChar c) || sanitizeChar c == '_') = true := by
  by_cases h : allowedChar c
  · simp [sanitizeChar, h]
  · simp [sanitizeChar, h]

theorem sanitize_list_idem (l : List Char) :
    (l.map sanitizeChar).map sanitizeChar = l.map sanitizeChar := by
  induction l with
  | nil => rfl
  | cons c l ih => simp [ih, sanitizeChar_idem]

/-- Claim C10: `sanitizeFilename` is idempotent, and every character of
its output is an ASCII letter, digit, parenthesis, square bracket,
hyphen, comma, space (the allowed class) or an underscore. -/
theorem sanitizeFilename_idem_output (s : String) :
    sanitizeFilename (sanitizeFilename s) = sanitizeFilename s ∧
    ∀ c ∈ (sanitizeFilename s).data, (allowedChar c || c == '_') = true := by
  constructor
  · exact congrArg String.mk (sanitize_list_idem s.data)
  · intro c hc
    obtain ⟨a, _, rfl⟩ := List.mem_map.mp hc
    exact sanitizeChar_output a

/-- Concrete instantiation of `sanitizeFilename_idem_output` at the
string `"a/b"` and its output character `'_'`. -/
theorem sanitizeFilename_idem_output_witness :
    sanitizeFilename (sanitizeFilename (String.mk ['a', '/', 'b']))
      = sanitizeFilename (String.mk ['a', '/', 'b']) ∧
    (allowedChar '_' || '_' == '_') = true :=
  ⟨(sanitizeFilename_idem_output (String.mk ['a', '/', 'b'])).1,
   (sanitizeFilename_idem_output (String.mk ['a', '/', 'b'])).2 '_' (by decide)⟩
